import Mathlib

/-!
Shallow embedding of the pyplotting spectral curve toolkit
(src/plot_utils.py, src/uvvis_methods.py, src/plot_xrd_methods.py).

Numbers are modelled as exact rationals (ℚ); numpy 1-D arrays as List ℚ.
Transcendental float operations that cannot take exact rational values
(the float power operator, arcsin, π) are abstracted as parameters, and
fallible code paths (Python index errors, fitting failures) are modelled
with Option / Except.
-/

namespace Pyplotting

/-- Model of numpy ndarray.min() for a 1-D array: minimum of a nonempty
list (the empty case, which numpy rejects with an error, is given the
junk value 0 and is never relied upon). -/
def minQ : List ℚ → ℚ
  | [] => 0
  | h :: t => t.foldl min h

/-- Model of numpy ndarray.max() for a 1-D array, as in minQ. -/
def maxQ : List ℚ → ℚ
  | [] => 0
  | h :: t => t.foldl max h

/-- Model of numpy (y0 == y1).all() for equal-length arrays: element-wise
equality of the zipped lists. -/
def allEq (y0 y1 : List ℚ) : Bool :=
  (y0.zip y1).all (fun p => p.1 == p.2)

/-- Embedding of plot_utils.stack_by_percent: if all elements of y0 and y1
are equal, return y1 unchanged; otherwise shift y1 by
delta1 - delta0 where delta0 = min(y1 - y0) and
delta1 = (max(y0) - min(y0)) * percent / 100. -/
def stack_by_percent (y0 y1 : List ℚ) (percent : ℚ) : List ℚ :=
  if allEq y0 y1 then y1
  else
    let delta0 := minQ (List.zipWith (fun a b => a - b) y1 y0)
    let delta1 := (maxQ y0 - minQ y0) * percent / 100
    y1.map (fun v => v - delta0 + delta1)

theorem foldl_min_map_add (c : ℚ) :
    ∀ (t : List ℚ) (a : ℚ),
      (t.map (fun v => v + c)).foldl min (a + c) = t.foldl min a + c := by
  intro t
  induction t with
  | nil => intro a; rfl
  | cons h t ih =>
    intro a
    have hmin : min (a + c) (h + c) = min a h + c := by
      rcases le_total a h with hle | hle
      · rw [min_eq_left hle, min_eq_left (by linarith)]
      · rw [min_eq_right hle, min_eq_right (by linarith)]
    simp only [List.map_cons, List.foldl_cons, hmin, ih]

theorem minQ_map_add (l : List ℚ) (c : ℚ) (h : l ≠ []) :
    minQ (l.map (fun v => v + c)) = minQ l + c := by
  cases l with
  | nil => exact absurd rfl h
  | cons a t => simp only [minQ, List.map_cons]; exact foldl_min_map_add c t a

theorem zipWith_sub_map_add (c : ℚ) :
    ∀ (l1 l2 : List ℚ),
      List.zipWith (fun a b => a - b) (l1.map (fun v => v + c)) l2 =
        (List.zipWith (fun a b => a - b) l1 l2).map (fun v => v + c) := by
  intro l1
  induction l1 with
  | nil => intro l2; simp
  | cons a t ih =>
    intro l2
    cases l2 with
    | nil => simp
    | cons b s =>
      simp only [List.map_cons, List.zipWith_cons_cons, ih]
      congr 1
      ring

theorem allEq_nil : allEq [] [] = true := by rfl

/-- C1: for equal-length arrays that are not element-wise equal,
min(stack_by_percent y0 y1 p - y0) = p / 100 * (max y0 - min y0);
and when the arrays are element-wise equal, stack_by_percent is the
identity on y1. -/
theorem stack_by_percent_spec (y0 y1 : List ℚ) (p : ℚ)
    (hlen : y0.length = y1.length) :
    (allEq y0 y1 = false →
      minQ (List.zipWith (fun a b => a - b) (stack_by_percent y0 y1 p) y0) =
        p / 100 * (maxQ y0 - minQ y0)) ∧
    (allEq y0 y1 = true → stack_by_percent y0 y1 p = y1) := by
  constructor
  · intro hne
    have hy1 : y1 ≠ [] := by
      intro hnil
      subst hnil
      have h0 : y0 = [] := List.length_eq_zero.mp hlen
      subst h0
      rw [allEq_nil] at hne
      exact absurd hne (by decide)
    unfold stack_by_percent
    rw [if_neg (by rw [hne]; exact Bool.false_ne_true)]
    set d := List.zipWith (fun a b => a - b) y1 y0 with hd
    set d0 := minQ d with hd0
    set d1 := (maxQ y0 - minQ y0) * p / 100 with hd1
    have hmap : y1.map (fun v => v - d0 + d1) = y1.map (fun v => v + (d1 - d0)) := by
      apply List.map_congr_left
      intro a _
      ring
    rw [hmap, zipWith_sub_map_add, ← hd]
    have hdne : d ≠ [] := by
      intro hnil
      apply hy1
      have : d.length = 0 := by rw [hnil]; rfl
      rw [hd, List.length_zipWith, ← hlen, min_self] at this
      exact List.length_eq_zero.mp (by rw [hlen] at this; exact this)
    rw [minQ_map_add d _ hdne, ← hd0, hd1]
    ring
  · intro heq
    unfold stack_by_percent
    rw [if_pos heq]

/-- Witness for C1 at y0 = [0, 2], y1 = [1, 5], p = 10. -/
theorem stack_by_percent_spec_witness :
    minQ (List.zipWith (fun a b => a - b)
        (stack_by_percent [0, 2] [1, 5] 10) [0, 2]) =
      10 / 100 * (maxQ [0, 2] - minQ [0, 2]) :=
  (stack_by_percent_spec [0, 2] [1, 5] 10 (by decide)).1 (by decide)

/-- C10: for equal-length, not element-wise-equal arrays, stack_by_percent
is a pure vertical translation: a single constant c shifts every element
of y1, so all pairwise differences of y1 are preserved. -/
theorem stack_by_percent_translation (y0 y1 : List ℚ) (p : ℚ)
    (_hlen : y0.length = y1.length) (hne : allEq y0 y1 = false) :
    ∃ c : ℚ,
      (∀ i, i < y1.length →
        (stack_by_percent y0 y1 p).getD i 0 = y1.getD i 0 + c) ∧
      (∀ i j, i < y1.length → j < y1.length →
        (stack_by_percent y0 y1 p).getD i 0 - (stack_by_percent y0 y1 p).getD j 0 =
          y1.getD i 0 - y1.getD j 0) := by
  unfold stack_by_percent
  rw [if_neg (by rw [hne]; exact Bool.false_ne_true)]
  set d0 := minQ (List.zipWith (fun a b => a - b) y1 y0) with hd0
  set d1 := (maxQ y0 - minQ y0) * p / 100 with hd1
  refine ⟨d1 - d0, ?_, ?_⟩
  · intro i hi
    rw [List.getD_eq_getElem _ _ (by simpa using hi), List.getD_eq_getElem _ _ hi,
      List.getElem_map]
    ring
  · intro i j hi hj
    rw [List.getD_eq_getElem _ _ (by simpa using hi),
      List.getD_eq_getElem _ _ (by simpa using hj),
      List.getD_eq_getElem _ _ hi, List.getD_eq_getElem _ _ hj,
      List.getElem_map, List.getElem_map]
    ring

/-- Witness for C10 at y0 = [1, 2], y1 = [3, 7], p = 5. -/
theorem stack_by_percent_translation_witness :
    ∃ c : ℚ,
      (∀ i, i < ([3, 7] : List ℚ).length →
        (stack_by_percent [1, 2] [3, 7] 5).getD i 0 = ([3, 7] : List ℚ).getD i 0 + c) ∧
      (∀ i j, i < ([3, 7] : List ℚ).length → j < ([3, 7] : List ℚ).length →
        (stack_by_percent [1, 2] [3, 7] 5).getD i 0 -
            (stack_by_percent [1, 2] [3, 7] 5).getD j 0 =
          ([3, 7] : List ℚ).getD i 0 - ([3, 7] : List ℚ).getD j 0) :=
  stack_by_percent_translation [1, 2] [3, 7] 5 (by decide) (by decide)

/-- One iteration of the loop in uvvis_methods.differentiate at index i:
the appended pair (x[i], (y[i+1] - y[i-1]) / (x[i+1] - x[i-1])), with each
Python list access modelled as a fallible lookup (IndexError becomes none). -/
def diffStep (x y : List ℚ) (i : Nat) : Option (ℚ × ℚ) := do
  let xi ← x[i]?
  let yp ← y[i + 1]?
  let ym ← y[i - 1]?
  let xp ← x[i + 1]?
  let xm ← x[i - 1]?
  pure (xi, (yp - ym) / (xp - xm))

/-- Embedding of uvvis_methods.differentiate: iterate over
range(len(x))[1:-1], collecting x[i] into dx and the central difference
into dydx; a failing list access aborts the whole call (Python raises). -/
def differentiate (x y : List ℚ) : Option (List ℚ × List ℚ) :=
  ((((List.range x.length).drop 1).dropLast).mapM (diffStep x y)).map List.unzip

theorem mapM_eq_some_map {α β : Type} (f : α → Option β) (g : α → β) :
    ∀ l : List α, (∀ a ∈ l, f a = some (g a)) → l.mapM f = some (l.map g) := by
  intro l
  induction l with
  | nil => intro _; rfl
  | cons a t ih =>
    intro h
    rw [List.mapM_cons, h a (List.mem_cons_self a t),
      ih (fun b hb => h b (List.mem_cons_of_mem a hb))]
    rfl

theorem unzip_map_pair {α : Type} (f g : α → ℚ) (l : List α) :
    (l.map (fun i => (f i, g i))).unzip = (l.map f, l.map g) := by
  induction l with
  | nil => rfl
  | cons a t ih => simp [List.unzip_cons, ih]

theorem interior_indices (n : Nat) (h : 2 ≤ n) :
    ((List.range n).drop 1).dropLast = (List.range (n - 2)).map (fun j => j + 1) := by
  apply List.ext_getElem
  · simp; omega
  · intro i h1 h2
    simp only [List.getElem_dropLast, List.getElem_drop, List.getElem_range,
      List.getElem_map]
    omega

/-- C3: for equal-length inputs of length at least 3, differentiate
returns x with its first and last element removed together with the list
of central differences (y[j+2] - y[j]) / (x[j+2] - x[j]) for
j = 0 .. n - 3 (that is, dydx[i-1] for interior index i = j + 1). -/
theorem differentiate_spec (x y : List ℚ) (hlen : x.length = y.length)
    (h3 : 3 ≤ x.length) :
    differentiate x y =
      some ((x.drop 1).dropLast,
        (List.range (x.length - 2)).map (fun j =>
          (y.getD (j + 2) 0 - y.getD j 0) / (x.getD (j + 2) 0 - x.getD j 0))) := by
  unfold differentiate
  rw [interior_indices x.length (by omega)]
  set g : Nat → ℚ × ℚ := fun i =>
    (x.getD i 0, (y.getD (i + 1) 0 - y.getD (i - 1) 0) / (x.getD (i + 1) 0 - x.getD (i - 1) 0))
    with hg
  have hstep : ∀ i ∈ (List.range (x.length - 2)).map (fun j => j + 1),
      diffStep x y i = some (g i) := by
    intro i hi
    obtain ⟨j, hj, rfl⟩ := List.mem_map.mp hi
    have hjlt : j < x.length - 2 := List.mem_range.mp hj
    have hx1 : j + 1 < x.length := by omega
    have hx2 : j + 1 + 1 < x.length := by omega
    have hx0 : j + 1 - 1 < x.length := by omega
    have hy2 : j + 1 + 1 < y.length := by omega
    have hy0 : j + 1 - 1 < y.length := by omega
    simp only [diffStep, hg, List.getElem?_eq_getElem, hx1, hx2, hx0, hy2, hy0,
      Option.bind_eq_bind, Option.some_bind, List.getD_eq_getElem]
    rfl
  rw [mapM_eq_some_map (diffStep x y) g _ hstep, List.map_map]
  have hcomp : (g ∘ fun j => j + 1) = fun j =>
      (x.getD (j + 1) 0, (y.getD (j + 2) 0 - y.getD j 0) / (x.getD (j + 2) 0 - x.getD j 0)) := by
    funext j
    simp only [Function.comp, hg]
    norm_num
  rw [hcomp]
  simp only [Option.map_some', unzip_map_pair]
  congr 1
  congr 1
  apply List.ext_getElem
  · simp; omega
  · intro i h1 h2
    simp only [List.getElem_map, List.getElem_range, List.getElem_dropLast,
      List.getElem_drop]
    rw [List.getD_eq_getElem]
    · congr 1; omega
    · simp at h2; omega

/-- Witness for C3 at x = [0, 1, 2, 3, 4], y = [0, 1, 4, 9, 16]. -/
theorem differentiate_spec_witness :
    differentiate [0, 1, 2, 3, 4] [0, 1, 4, 9, 16] =
      some (((([0, 1, 2, 3, 4] : List ℚ).drop 1).dropLast),
        (List.range (([0, 1, 2, 3, 4] : List ℚ).length - 2)).map (fun j =>
          (([0, 1, 4, 9, 16] : List ℚ).getD (j + 2) 0 - ([0, 1, 4, 9, 16] : List ℚ).getD j 0) /
            (([0, 1, 2, 3, 4] : List ℚ).getD (j + 2) 0 - ([0, 1, 2, 3, 4] : List ℚ).getD j 0))) :=
  differentiate_spec [0, 1, 2, 3, 4] [0, 1, 4, 9, 16] (by decide) (by decide)

/-- Counterexample to C5: x = [0, 1, 2] and y = [0, 1, 2, 3] violate the
precondition len(x) == len(y) (3 ≠ 4), yet differentiate returns the
non-empty result ([1], [1]) rather than an empty one. -/
theorem differentiate_unequal_counterexample :
    (([0, 1, 2] : List ℚ).length = ([0, 1, 2, 3] : List ℚ).length → False) ∧
    differentiate [0, 1, 2] [0, 1, 2, 3] = some ([1], [1]) ∧
    differentiate [0, 1, 2] [0, 1, 2, 3] ≠ some ([], []) := by
  have hval : differentiate [0, 1, 2] [0, 1, 2, 3] = some ([1], [1]) := by
    norm_num [differentiate, diffStep, List.range_succ, List.mapM.loop, List.mapM,
      List.unzip]
  refine ⟨by decide, hval, ?_⟩
  rw [hval]
  intro hcontra
  have := (Option.some_inj.mp hcontra)
  simp at this

/-- C5 amended: when len(x) < 3 the result is empty (both output lists
empty), regardless of y; unequal lengths alone do not make the result
empty. -/
theorem differentiate_short_input (x y : List ℚ) (hx : x.length < 3) :
    differentiate x y = some ([], []) := by
  unfold differentiate
  have hidx : (((List.range x.length).drop 1).dropLast) = [] := by
    apply List.eq_nil_of_length_eq_zero
    simp
    omega
  rw [hidx]
  rfl

/-- Witness for the amended C5 at x = [0], y = [1, 2]. -/
theorem differentiate_short_input_witness :
    differentiate [0] [1, 2] = some ([], []) :=
  differentiate_short_input [0] [1, 2] (by decide)

/-- Error taxonomy. Modelled from the spec: the source scripts have no
structured errors (scipy raises a library-level error on an
underdetermined fit, and a parallel-lines bandgap divides by zero); the
spec directs a hardened reimplementation to expose these two conditions
as explicit error kinds. -/
inductive FitError
  | insufficientData
  | degenerateFit
deriving DecidableEq

/-- Embedding of uvvis_methods.linear_func: k * x + b. -/
def linear_func (x k b : ℚ) : ℚ := k * x + b

/-- Model of numpy boolean-mask indexing l[mask]: keep the elements of l
whose mask entry is true. -/
def maskFilter {α : Type} (l : List α) (mask : List Bool) : List α :=
  (l.zip mask).filterMap (fun p => if p.2 then some p.1 else none)

/-- The boolean mask np.logical_and(x >= low_x, x <= high_x) built in
uvvis_methods.fit_tauc_linear. -/
def windowMask (x : List ℚ) (lowX highX : ℚ) : List Bool :=
  x.map (fun v => decide (lowX ≤ v) && decide (v ≤ highX))

/-- Closed-form ordinary least-squares fit of y = k * x + b, the minimizer
scipy.optimize.curve_fit computes for the linear model linear_func. -/
def olsFit (pts : List (ℚ × ℚ)) : ℚ × ℚ :=
  let n : ℚ := pts.length
  let sx := (pts.map Prod.fst).sum
  let sy := (pts.map Prod.snd).sum
  let sxx := (pts.map (fun p => p.1 * p.1)).sum
  let sxy := (pts.map (fun p => p.1 * p.2)).sum
  let k := (n * sxy - sx * sy) / (n * sxx - sx * sx)
  (k, (sy - k * sx) / n)

/-- Embedding of uvvis_methods.fit_tauc_linear: restrict x and y to the
window low_x ≤ x ≤ high_x with a boolean mask built from x, then fit
y = k * x + b by least squares on the restricted points.
Modelled from the spec: the InsufficientDataError branch when the window
holds fewer than 2 points (the source passes the underdetermined problem
to scipy.optimize.curve_fit, which raises a library error there). -/
def fit_tauc_linear (x y : List ℚ) (lowX highX : ℚ) : Except FitError (ℚ × ℚ) :=
  if (maskFilter x (windowMask x lowX highX)).length < 2 then
    Except.error FitError.insufficientData
  else
    Except.ok (olsFit ((maskFilter x (windowMask x lowX highX)).zip
      (maskFilter y (windowMask x lowX highX))))

/-- Embedding of uvvis_methods.calculate_bandgap: fit the baseline window
and the absorption-edge window, intersect the two lines, and return the
intersection together with both lines evaluated over the full x array.
Modelled from the spec: the DegenerateFitError branch when the two slopes
are equal (the source divides by k_bandgap - k_baseline = 0 there). -/
def calculate_bandgap (x y : List ℚ) (blo bhi elo ehi : ℚ) :
    Except FitError ((ℚ × ℚ) × (List ℚ × List ℚ) × (List ℚ × List ℚ)) :=
  match fit_tauc_linear x y blo bhi, fit_tauc_linear x y elo ehi with
  | Except.ok pb, Except.ok pe =>
      if pe.1 = pb.1 then Except.error FitError.degenerateFit
      else
        let bx := (pb.2 - pe.2) / (pe.1 - pb.1)
        Except.ok ((bx, linear_func bx pe.1 pe.2),
          (x, x.map (fun t => linear_func t pb.1 pb.2)),
          (x, x.map (fun t => linear_func t pe.1 pe.2)))
  | Except.error e, _ => Except.error e
  | _, Except.error e => Except.error e

theorem maskFilter_cons {α : Type} (a : α) (l : List α) (c : Bool) (m : List Bool) :
    maskFilter (a :: l) (c :: m) =
      if c then a :: maskFilter l m else maskFilter l m := by
  cases c <;> simp [maskFilter, List.filterMap_cons]

theorem maskFilter_self (p : ℚ → Bool) :
    ∀ x : List ℚ, maskFilter x (x.map p) = x.filter p := by
  intro x
  induction x with
  | nil => rfl
  | cons a t ih =>
    rw [List.map_cons, maskFilter_cons, List.filter_cons]
    cases hpa : p a <;> simp [ih]

theorem maskFilter_zip (p : ℚ → Bool) :
    ∀ (x y : List ℚ), x.length = y.length →
      (maskFilter x (x.map p)).zip (maskFilter y (x.map p)) =
        (x.zip y).filter (fun q => p q.1) := by
  intro x
  induction x with
  | nil =>
    intro y hlen
    simp [maskFilter]
  | cons a t ih =>
    intro y hlen
    cases y with
    | nil => simp at hlen
    | cons b s =>
      rw [List.map_cons, maskFilter_cons, maskFilter_cons, List.zip_cons_cons,
        List.filter_cons]
      cases hpa : p a <;> simp [ih s (by simpa using hlen)]

theorem maskFilter_length_eq (p : ℚ → Bool) :
    ∀ (x y : List ℚ), x.length = y.length →
      (maskFilter y (x.map p)).length = (maskFilter x (x.map p)).length := by
  intro x
  induction x with
  | nil =>
    intro y hlen
    have : y = [] := List.length_eq_zero.mp (by simpa using hlen.symm)
    subst this
    rfl
  | cons a t ih =>
    intro y hlen
    cases y with
    | nil => simp at hlen
    | cons b s =>
      rw [List.map_cons, maskFilter_cons, maskFilter_cons]
      cases hpa : p a <;> simp [ih s (by simpa using hlen)]

/-- C6: the linear-region fitter fails with InsufficientDataError exactly
when the subset of points with low_x ≤ x ≤ high_x (inclusive) has fewer
than 2 points; otherwise it returns the ordinary least-squares fit of
y = k * x + b on that subset. -/
theorem fit_tauc_linear_spec (x y : List ℚ) (lowX highX : ℚ)
    (hlen : x.length = y.length) :
    (fit_tauc_linear x y lowX highX = Except.error FitError.insufficientData ↔
      ((x.zip y).filter
          (fun q => decide (lowX ≤ q.1) && decide (q.1 ≤ highX))).length < 2) ∧
    (2 ≤ ((x.zip y).filter
          (fun q => decide (lowX ≤ q.1) && decide (q.1 ≤ highX))).length →
      fit_tauc_linear x y lowX highX =
        Except.ok (olsFit ((x.zip y).filter
          (fun q => decide (lowX ≤ q.1) && decide (q.1 ≤ highX))))) := by
  set p : ℚ → Bool := fun v => decide (lowX ≤ v) && decide (v ≤ highX) with hp
  have hmask : windowMask x lowX highX = x.map p := rfl
  have hzip : (maskFilter x (x.map p)).zip (maskFilter y (x.map p)) =
      (x.zip y).filter (fun q => p q.1) := maskFilter_zip p x y hlen
  have hlen2 : (maskFilter y (x.map p)).length = (maskFilter x (x.map p)).length :=
    maskFilter_length_eq p x y hlen
  have hsel : ((x.zip y).filter (fun q => p q.1)).length =
      (maskFilter x (x.map p)).length := by
    rw [← hzip, List.length_zip, hlen2, min_self]
  constructor
  · unfold fit_tauc_linear
    rw [hmask]
    by_cases hlt : (maskFilter x (x.map p)).length < 2
    · rw [if_pos hlt, hsel]
      simp [hlt]
    · rw [if_neg hlt, hsel]
      simp [hlt]
  · intro hge
    unfold fit_tauc_linear
    rw [hmask]
    rw [hsel] at hge
    rw [if_neg (by omega), hzip]

/-- Witness for C6 at x = [0, 1, 2, 3], y = [1, 3, 5, 7], window [0, 3]. -/
theorem fit_tauc_linear_spec_witness :
    fit_tauc_linear [0, 1, 2, 3] [1, 3, 5, 7] 0 3 =
      Except.ok (olsFit ((([0, 1, 2, 3] : List ℚ).zip ([1, 3, 5, 7] : List ℚ)).filter
        (fun q => decide ((0 : ℚ) ≤ q.1) && decide (q.1 ≤ (3 : ℚ))))) :=
  (fit_tauc_linear_spec [0, 1, 2, 3] [1, 3, 5, 7] 0 3 (by decide)).2 (by
    norm_num [List.filter])

/-- C2: when both window fits succeed with coefficients (k_base, b_base)
and (k_edge, b_edge) and the slopes differ, calculate_bandgap returns the
intersection x* = (b_base - b_edge) / (k_edge - k_base),
y* = k_edge * x* + b_edge, together with both fitted lines evaluated at
every x of the input curve. -/
theorem calculate_bandgap_spec (x y : List ℚ) (blo bhi elo ehi kb bb ke be : ℚ)
    (hb : fit_tauc_linear x y blo bhi = Except.ok (kb, bb))
    (he : fit_tauc_linear x y elo ehi = Except.ok (ke, be))
    (hk : ke ≠ kb) :
    calculate_bandgap x y blo bhi elo ehi =
      Except.ok (((bb - be) / (ke - kb), ke * ((bb - be) / (ke - kb)) + be),
        (x, x.map (fun t => kb * t + bb)),
        (x, x.map (fun t => ke * t + be))) := by
  unfold calculate_bandgap
  rw [hb, he]
  simp only [if_neg hk, linear_func]

/-- Witness for C2 at x = [0, 1, 2, 3, 4, 5], y = [0, 0, 0, 3, 6, 9],
baseline window [0, 2] (fit k = 0, b = 0) and edge window [3, 5]
(fit k = 3, b = -6): intersection (2, 0). -/
theorem calculate_bandgap_spec_witness :
    calculate_bandgap [0, 1, 2, 3, 4, 5] [0, 0, 0, 3, 6, 9] 0 2 3 5 =
      Except.ok (((((0 : ℚ)) - (-6)) / ((3 : ℚ) - 0),
          (3 : ℚ) * (((0 : ℚ) - (-6)) / ((3 : ℚ) - 0)) + (-6)),
        (([0, 1, 2, 3, 4, 5] : List ℚ),
          ([0, 1, 2, 3, 4, 5] : List ℚ).map (fun t => (0 : ℚ) * t + 0)),
        (([0, 1, 2, 3, 4, 5] : List ℚ),
          ([0, 1, 2, 3, 4, 5] : List ℚ).map (fun t => (3 : ℚ) * t + (-6)))) :=
  calculate_bandgap_spec [0, 1, 2, 3, 4, 5] [0, 0, 0, 3, 6, 9] 0 2 3 5 0 0 3 (-6)
    (by norm_num [fit_tauc_linear, windowMask, maskFilter, List.filterMap, olsFit])
    (by norm_num [fit_tauc_linear, windowMask, maskFilter, List.filterMap, olsFit])
    (by norm_num)

/-- C7: when both window fits succeed with equal slopes, calculate_bandgap
fails with DegenerateFitError instead of returning a result. -/
theorem calculate_bandgap_degenerate (x y : List ℚ) (blo bhi elo ehi kb bb ke be : ℚ)
    (hb : fit_tauc_linear x y blo bhi = Except.ok (kb, bb))
    (he : fit_tauc_linear x y elo ehi = Except.ok (ke, be))
    (hk : ke = kb) :
    calculate_bandgap x y blo bhi elo ehi = Except.error FitError.degenerateFit := by
  unfold calculate_bandgap
  rw [hb, he]
  simp only [if_pos hk]

/-- Witness for C7 at x = [0, 1, 2, 3], y = [0, 0, 3, 3], baseline window
[0, 1] (fit k = 0, b = 0) and edge window [2, 3] (fit k = 0, b = 3):
parallel fitted lines. -/
theorem calculate_bandgap_degenerate_witness :
    calculate_bandgap [0, 1, 2, 3] [0, 0, 3, 3] 0 1 2 3 =
      Except.error FitError.degenerateFit :=
  calculate_bandgap_degenerate [0, 1, 2, 3] [0, 0, 3, 3] 0 1 2 3 0 0 0 3
    (by norm_num [fit_tauc_linear, windowMask, maskFilter, List.filterMap, olsFit])
    (by norm_num [fit_tauc_linear, windowMask, maskFilter, List.filterMap, olsFit])
    rfl

/-- Planck constant in J s (scipy.constants.h), the exact SI value
6.62607015e-34. -/
def hPlanck : ℚ := 662607015 / 10 ^ 42

/-- Speed of light in m/s (scipy.constants.c), the exact SI value. -/
def cLight : ℚ := 299792458

/-- Elementary charge in C (scipy.constants.e), the exact SI value
1.602176634e-19. -/
def eCharge : ℚ := 1602176634 / 10 ^ 28

/-- Embedding of uvvis_methods.calculate_tauc: per curve, energy in eV is
(h * c * 10^9 / wavelength) / e element-wise, and the Tauc ordinate is
(absorbance * 10^2 * energy) ** power element-wise; label and power are
carried through. The float power operator ** is kept abstract as the
parameter fpow (its argument for a fractional power is irrational), so
every theorem below holds for any interpretation of **. -/
def calculate_tauc (fpow : ℚ → ℚ → ℚ) (raw : List (String × List ℚ × List ℚ))
    (power : ℚ) : List (String × List ℚ × List ℚ × ℚ) :=
  raw.map (fun c =>
    (c.1,
     c.2.1.map (fun w => hPlanck * cLight * 10 ^ 9 / w / eCharge),
     List.zipWith (fun a e => fpow (a * 10 ^ 2 * e) power) c.2.2
       (c.2.1.map (fun w => hPlanck * cLight * 10 ^ 9 / w / eCharge)),
     power))

theorem getD_map_lt (l : List ℚ) (f : ℚ → ℚ) (i : Nat) (h : i < l.length) :
    (l.map f).getD i 0 = f (l.getD i 0) := by
  rw [List.getD_eq_getElem _ _ (by simpa using h), List.getD_eq_getElem _ _ h,
    List.getElem_map]

theorem getD_zipWith_lt (f : ℚ → ℚ → ℚ) (l1 l2 : List ℚ) (i : Nat)
    (h1 : i < l1.length) (h2 : i < l2.length) :
    (List.zipWith f l1 l2).getD i 0 = f (l1.getD i 0) (l2.getD i 0) := by
  rw [List.getD_eq_getElem _ _ (by rw [List.length_zipWith]; omega),
    List.getD_eq_getElem _ _ h1, List.getD_eq_getElem _ _ h2, List.getElem_zipWith]

/-- C4: for the curve at any position j of the input and any power, the
Tauc transform yields element-wise energy (h * c * 1e9 / wavelength) / e
as the output x and (absorbance * 100 * energy) ** power as the output y,
carrying label and power through unchanged. -/
theorem calculate_tauc_spec (fpow : ℚ → ℚ → ℚ)
    (raw : List (String × List ℚ × List ℚ)) (power : ℚ) (j : Nat)
    (label : String) (w a : List ℚ) (hj : j < raw.length)
    (hcurve : raw.getD j ("", [], []) = (label, w, a))
    (hlen : a.length = w.length) :
    ∃ xs ys : List ℚ,
      (calculate_tauc fpow raw power).getD j ("", [], [], 0) = (label, xs, ys, power) ∧
      xs.length = w.length ∧ ys.length = w.length ∧
      (∀ i, i < w.length →
        xs.getD i 0 = hPlanck * cLight * 10 ^ 9 / w.getD i 0 / eCharge) ∧
      (∀ i, i < w.length →
        ys.getD i 0 =
          fpow (a.getD i 0 * 100 * (hPlanck * cLight * 10 ^ 9 / w.getD i 0 / eCharge))
            power) := by
  have hjm : j < (calculate_tauc fpow raw power).length := by
    simpa [calculate_tauc] using hj
  have hr : raw[j] = (label, w, a) := by
    rw [← List.getD_eq_getElem raw ("", [], []) hj]
    exact hcurve
  refine ⟨w.map (fun v => hPlanck * cLight * 10 ^ 9 / v / eCharge),
    List.zipWith (fun b e => fpow (b * 10 ^ 2 * e) power) a
      (w.map (fun v => hPlanck * cLight * 10 ^ 9 / v / eCharge)),
    ?_, by simp, by simp [hlen], ?_, ?_⟩
  · rw [List.getD_eq_getElem _ _ hjm]
    show (raw.map _)[j] = _
    rw [List.getElem_map, hr]
  · intro i hi
    exact getD_map_lt w _ i hi
  · intro i hi
    rw [getD_zipWith_lt _ a _ i (by omega) (by simpa using hi),
      getD_map_lt w _ i hi]
    norm_num

/-- Witness for C4 at the single curve (s, [2], [3]) with power 2 and the
power operator interpreted as the identity in its first argument. -/
theorem calculate_tauc_spec_witness :
    ∃ xs ys : List ℚ,
      (calculate_tauc (fun b _ => b) [("s", [2], [3])] 2).getD 0 ("", [], [], 0) =
        ("s", xs, ys, 2) ∧
      xs.length = ([2] : List ℚ).length ∧ ys.length = ([2] : List ℚ).length ∧
      (∀ i, i < ([2] : List ℚ).length →
        xs.getD i 0 = hPlanck * cLight * 10 ^ 9 / ([2] : List ℚ).getD i 0 / eCharge) ∧
      (∀ i, i < ([2] : List ℚ).length →
        ys.getD i 0 =
          (fun b _ => b)
            (([3] : List ℚ).getD i 0 * 100 *
              (hPlanck * cLight * 10 ^ 9 / ([2] : List ℚ).getD i 0 / eCharge)) 2) :=
  calculate_tauc_spec (fun b _ => b) [("s", [2], [3])] 2 0 "s" [2] [3]
    (by decide) rfl (by decide)

/-- The intensity normalization of plot_xrd_methods.import_xrds and
plot_xrd.import_xrds: y_rel = y / y.max(). -/
def normalizeXrd (y : List ℚ) : List ℚ := y.map (fun v => v / maxQ y)

/-- Embedding of plot_xrd_methods.import_xrds restricted to its numeric
content: each (label, x, y) file becomes (x, y / y.max(), label). -/
def import_xrds (files : List (String × List ℚ × List ℚ)) :
    List (List ℚ × List ℚ × String) :=
  files.map (fun f => (f.2.1, normalizeXrd f.2.2, f.1))

theorem foldl_max_map_div (m : ℚ) (hm : 0 < m) :
    ∀ (t : List ℚ) (a : ℚ),
      (t.map (fun v => v / m)).foldl max (a / m) = t.foldl max a / m := by
  intro t
  induction t with
  | nil => intro a; rfl
  | cons h t ih =>
    intro a
    have hmax : max (a / m) (h / m) = max a h / m := by
      rcases le_total a h with hle | hle
      · rw [max_eq_right hle, max_eq_right (div_le_div_of_nonneg_right hle hm.le)]
      · rw [max_eq_left hle, max_eq_left (div_le_div_of_nonneg_right hle hm.le)]
    simp only [List.map_cons, List.foldl_cons, hmax, ih]

theorem maxQ_map_div (y : List ℚ) (m : ℚ) (hm : 0 < m) (hne : y ≠ []) :
    maxQ (y.map (fun v => v / m)) = maxQ y / m := by
  cases y with
  | nil => exact absurd rfl hne
  | cons a t => simp only [maxQ, List.map_cons]; exact foldl_max_map_div m hm t a

/-- C8: the XRD intensity normalization y ↦ y / max(y) is idempotent on
any non-empty intensity list with positive maximum. -/
theorem normalizeXrd_idempotent (y : List ℚ) (hne : y ≠ []) (hpos : 0 < maxQ y) :
    normalizeXrd (normalizeXrd y) = normalizeXrd y := by
  unfold normalizeXrd
  simp only [maxQ_map_div y (maxQ y) hpos hne, div_self (ne_of_gt hpos),
    List.map_map]
  apply List.map_congr_left
  intro a _
  simp [Function.comp]

/-- Witness for C8 at y = [1, 2]. -/
theorem normalizeXrd_idempotent_witness :
    normalizeXrd (normalizeXrd [1, 2]) = normalizeXrd [1, 2] :=
  normalizeXrd_idempotent [1, 2] (by decide) (by norm_num [maxQ])

/-- NaN tracking for the Bragg conversion 2 * arcsin(lam / (2 * d)) * 180 / pi
of plot_xrd_methods.import_diff_peaks. Modelled from the spec and IEEE
semantics: the conversion is NaN exactly when d = 0 (lam / 2 / d is then
±Inf or NaN, whose arcsin is NaN) or the arcsin argument lies outside
[-1, 1]; scaling a finite arcsin value by 2, 180 and pi never creates a
NaN. -/
def dthetaIsNaN (lam d : ℚ) : Bool :=
  d == 0 || decide (lam / (2 * d) < -1) || decide (1 < lam / (2 * d))

/-- Embedding of plot_xrd_methods.import_diff_peaks restricted to its
numeric content: normalize intensities by their maximum, convert each
d-spacing by Bragg's law, and drop rows with a NaN angle from both arrays
via the boolean mask ~np.isnan(dthetta). The arcsin restricted to its
domain [-1, 1] and the constant pi take exact irrational values, so they
are kept abstract as the parameters asinQ and piQ. -/
def import_diff_peaks (asinQ : ℚ → ℚ) (piQ lam : ℚ) (rows : List (ℚ × ℚ)) :
    List ℚ × List ℚ :=
  (maskFilter
      ((rows.map Prod.fst).map (fun d => 2 * asinQ (lam / (2 * d)) * 180 / piQ))
      ((rows.map Prod.fst).map (fun d => !dthetaIsNaN lam d)),
   maskFilter
      ((rows.map Prod.snd).map (fun v => v / maxQ (rows.map Prod.snd)))
      ((rows.map Prod.fst).map (fun d => !dthetaIsNaN lam d)))

theorem maskFilter_map_pred {α : Type} (f : α → ℚ) (p : α → Bool) :
    ∀ rows : List α,
      maskFilter (rows.map f) (rows.map p) = (rows.filter p).map f := by
  intro rows
  induction rows with
  | nil => rfl
  | cons r t ih =>
    rw [List.map_cons, List.map_cons, maskFilter_cons, List.filter_cons]
    cases hpr : p r <;> simp [ih]

/-- C9: import_diff_peaks returns two equal-length arrays obtained by
dropping every row whose Bragg conversion is NaN from both the angle and
the intensity arrays; the kept angles are the conversions
2 * arcsin(lam / (2 * d)) * 180 / pi of the non-NaN rows, so the angle
array contains no NaN entry. -/
theorem import_diff_peaks_spec (asinQ : ℚ → ℚ) (piQ lam : ℚ)
    (rows : List (ℚ × ℚ)) :
    import_diff_peaks asinQ piQ lam rows =
      ((rows.filter (fun r => !dthetaIsNaN lam r.1)).map
          (fun r => 2 * asinQ (lam / (2 * r.1)) * 180 / piQ),
        (rows.filter (fun r => !dthetaIsNaN lam r.1)).map
          (fun r => r.2 / maxQ (rows.map Prod.snd))) ∧
    (import_diff_peaks asinQ piQ lam rows).1.length =
      (import_diff_peaks asinQ piQ lam rows).2.length ∧
    ∀ v ∈ (import_diff_peaks asinQ piQ lam rows).1,
      ∃ r ∈ rows, dthetaIsNaN lam r.1 = false ∧
        v = 2 * asinQ (lam / (2 * r.1)) * 180 / piQ := by
  have h1 : import_diff_peaks asinQ piQ lam rows =
      ((rows.filter (fun r => !dthetaIsNaN lam r.1)).map
          (fun r => 2 * asinQ (lam / (2 * r.1)) * 180 / piQ),
        (rows.filter (fun r => !dthetaIsNaN lam r.1)).map
          (fun r => r.2 / maxQ (rows.map Prod.snd))) := by
    unfold import_diff_peaks
    rw [List.map_map, List.map_map, List.map_map]
    rw [maskFilter_map_pred ((fun d => 2 * asinQ (lam / (2 * d)) * 180 / piQ) ∘ Prod.fst)
        ((fun d => !dthetaIsNaN lam d) ∘ Prod.fst) rows,
      maskFilter_map_pred ((fun v => v / maxQ (rows.map Prod.snd)) ∘ Prod.snd)
        ((fun d => !dthetaIsNaN lam d) ∘ Prod.fst) rows]
    rfl
  refine ⟨h1, by rw [h1]; simp, ?_⟩
  intro v hv
  rw [h1] at hv
  obtain ⟨r, hrf, hval⟩ := List.mem_map.mp hv
  obtain ⟨hrmem, hpred⟩ := List.mem_filter.mp hrf
  exact ⟨r, hrmem, by simpa using hpred, hval.symm⟩

end Pyplotting
